import Mathlib

/-!
# Verification development for the dotlottie player core

The repository's `src/` tree contains only the C ABI surface
(`dotlottie-ffi/bindings.h`), the uniffi C++ scaffolding
(`dotlottie-ffi/src/dotlottie_player.hpp`), the emscripten glue
(`dotlottie-ffi/emscripten_bindings.cpp`) and demo callers; the playback
scheduler, tween engine, trigger store, state machine engine and observer bus
themselves live in the Rust core, which is not part of `src/`.  Those
components are therefore modelled here from the specification, each such
definition marked `Modelled from the spec:`.  The uniffi `RustStream`
byte-order logic is real code in `src/dotlottie-ffi/src/dotlottie_player.hpp`
and is embedded directly.
-/

namespace DotLottie

/-- Error taxonomy of the engine (spec §7): `InvalidState`, `NotFound`,
`TypeMismatch`, `ValidationError`; decode/resource errors belong to excluded
collaborators and are not modelled. -/
inductive EngineError
  | invalidState
  | notFound
  | typeMismatch
  | validationError
deriving DecidableEq, Repr

/-- Playback mode, from `enum Mode` in `src/dotlottie-ffi/bindings.h`
(lines 39–44): Forward, Reverse, Bounce, ReverseBounce. -/
inductive Mode
  | forward
  | reverse
  | bounce
  | reverseBounce
deriving DecidableEq, Repr

/-- Playback status, from spec §3 `PlaybackState.status`:
Playing | Paused | Stopped | Complete. -/
inductive Status
  | playing
  | paused
  | stopped
  | complete
deriving DecidableEq, Repr

/-- Modelled from the spec: the decoded animation metadata the core consumes
(spec §3 "Animation": `total_frames`, `duration`, markers).  The scheduler
derives a frames-per-millisecond rate from the frame rate and duration
(spec §4.1); we carry that derived rate directly.  `f32` quantities are
modelled as rationals. -/
structure Animation where
  totalFrames : Rat
  framesPerMs : Rat
deriving DecidableEq, Repr

/-- Modelled from the spec: `PlaybackConfig` (spec §3), matching the fields of
`DotLottieConfig` in `src/dotlottie-ffi/bindings.h` lines 58–73 that the
scheduler reads: mode, loop flag, loop count (0 = infinite), speed,
frame-interpolation flag, optional segment. -/
structure PlaybackConfig where
  mode : Mode
  loopAnimation : Bool
  loopCount : Nat
  speed : Rat
  useFrameInterpolation : Bool
  segment : Option (Rat × Rat)
deriving DecidableEq, Repr

/-- Modelled from the spec: `PlaybackState` (spec §3): current frame,
direction sign, loops completed, status. -/
structure PlaybackState where
  currentFrame : Rat
  direction : Int
  loopsCompleted : Nat
  status : Status
deriving DecidableEq, Repr

/-- Modelled from the spec: `FrameResult` returned by `advance`
(spec §4.1): `{ frame, looped, completed }`. -/
structure FrameResult where
  frame : Rat
  looped : Bool
  completed : Bool
deriving DecidableEq, Repr

/-- Modelled from the spec: the active segment start (spec §3 / glossary:
the segment if narrower, else the whole animation `[0, total_frames-1]`). -/
def segStart (cfg : PlaybackConfig) (_a : Animation) : Rat :=
  match cfg.segment with
  | some (s, _) => s
  | none => 0

/-- Modelled from the spec: the active segment end. -/
def segEnd (cfg : PlaybackConfig) (a : Animation) : Rat :=
  match cfg.segment with
  | some (_, e) => e
  | none => a.totalFrames - 1

/-- Modelled from the spec: `use_frame_interpolation` toggles whether the
reported frame keeps its fractional part or is floored to an integer frame
(spec §4.1); presentation only. -/
def reportFrame (cfg : PlaybackConfig) (f : Rat) : Rat :=
  if cfg.useFrameInterpolation then f else (f.floor : Rat)

/-- Modelled from the spec: `advance(elapsed_ms)` of the PlaybackScheduler
(spec §4.1).  Fails with `InvalidState` when no animation is loaded or the
segment range is zero/negative.  A machine that is not Playing (Paused,
Stopped, or already Complete — "no further advancement until
`play()`/`seek()` resets state") is left unchanged.  Otherwise the frame
delta is `elapsed_ms * speed * frames_per_ms`; Forward/Reverse add/subtract
and clamp at the bounds, Bounce variants reflect the stored direction sign at
a bound; at the terminal bound the loop policy wraps/reflects and increments
`loops_completed` while `loop_count == 0` or `loops_completed < loop_count`,
and otherwise sets `status = Complete` with the frame clamped at the bound. -/
def advance (anim : Option Animation) (cfg : PlaybackConfig)
    (st : PlaybackState) (elapsedMs : Rat) :
    Except EngineError (PlaybackState × FrameResult) :=
  match anim with
  | none => .error .invalidState
  | some a =>
    let sb := segStart cfg a
    let se := segEnd cfg a
    if se ≤ sb then .error .invalidState
    else if st.status ≠ Status.playing then
      .ok (st, ⟨reportFrame cfg st.currentFrame, false, false⟩)
    else
      let delta := elapsedMs * cfg.speed * a.framesPerMs
      let canLoop := cfg.loopAnimation &&
        (cfg.loopCount == 0 || st.loopsCompleted < cfg.loopCount)
      match cfg.mode with
      | .forward =>
        let cand := st.currentFrame + delta
        if se ≤ cand then
          if canLoop then
            .ok ({ st with currentFrame := sb,
                           loopsCompleted := st.loopsCompleted + 1 },
                 ⟨reportFrame cfg sb, true, false⟩)
          else
            .ok ({ st with currentFrame := se, status := .complete },
                 ⟨reportFrame cfg se, false, true⟩)
        else
          .ok ({ st with currentFrame := cand },
               ⟨reportFrame cfg cand, false, false⟩)
      | .reverse =>
        let cand := st.currentFrame - delta
        if cand ≤ sb then
          if canLoop then
            .ok ({ st with currentFrame := se,
                           loopsCompleted := st.loopsCompleted + 1 },
                 ⟨reportFrame cfg se, true, false⟩)
          else
            .ok ({ st with currentFrame := sb, status := .complete },
                 ⟨reportFrame cfg sb, false, true⟩)
        else
          .ok ({ st with currentFrame := cand },
               ⟨reportFrame cfg cand, false, false⟩)
      | .bounce | .reverseBounce =>
        let cand := st.currentFrame + st.direction * delta
        if 0 ≤ st.direction then
          if se ≤ cand then
            if canLoop then
              .ok ({ st with currentFrame := se, direction := -st.direction,
                             loopsCompleted := st.loopsCompleted + 1 },
                   ⟨reportFrame cfg se, true, false⟩)
            else
              .ok ({ st with currentFrame := se, status := .complete },
                   ⟨reportFrame cfg se, false, true⟩)
          else
            .ok ({ st with currentFrame := cand },
                 ⟨reportFrame cfg cand, false, false⟩)
        else
          if cand ≤ sb then
            if canLoop then
              .ok ({ st with currentFrame := sb, direction := -st.direction,
                             loopsCompleted := st.loopsCompleted + 1 },
                   ⟨reportFrame cfg sb, true, false⟩)
            else
              .ok ({ st with currentFrame := sb, status := .complete },
                   ⟨reportFrame cfg sb, false, true⟩)
          else
            .ok ({ st with currentFrame := cand },
                 ⟨reportFrame cfg cand, false, false⟩)

/-- Modelled from the spec: total wrapper of `advance` expressing spec §7's
guarantee that a failed operation never partially mutates `PlaybackState`:
the caller keeps the old state on error. -/
def advanceTotal (anim : Option Animation) (cfg : PlaybackConfig)
    (st : PlaybackState) (elapsedMs : Rat) : PlaybackState :=
  match advance anim cfg st elapsedMs with
  | .ok (st', _) => st'
  | .error _ => st

/-- Modelled from the spec: `n` repeated `advance` calls with a fixed
elapsed time per tick. -/
def advanceN (anim : Option Animation) (cfg : PlaybackConfig)
    (elapsedMs : Rat) : Nat → PlaybackState → PlaybackState
  | 0, st => st
  | n + 1, st => advanceN anim cfg elapsedMs n (advanceTotal anim cfg st elapsedMs)

/-! ## TweenEngine (spec §4.2) -/

/-- Modelled from the spec: `TweenTarget` (spec §3): frames and milliseconds
of an in-flight tween; it also carries the `PlaybackState.status` frozen when
the tween began, to which control returns on completion (spec §4.2/§5). -/
structure TweenTarget where
  fromFrame : Rat
  toFrame : Rat
  durationMs : Rat
  elapsedMs : Rat
  frozenStatus : Status
deriving DecidableEq, Repr

/-- Modelled from the spec: the player-side playback state together with the
at-most-one in-flight tween (spec §5: at most one `TweenTarget`). -/
structure TweenPlayer where
  playback : PlaybackState
  tween : Option TweenTarget
deriving DecidableEq, Repr

/-- Modelled from the spec: `is_active()` (spec §4.2) — a tween exists. -/
def TweenPlayer.isActive (p : TweenPlayer) : Bool :=
  p.tween.isSome

/-- Modelled from the spec: `start(to_frame, duration_ms)` (spec §4.2):
captures `from_frame = current_frame`; fails with `InvalidState` if
`duration_ms ≤ 0` or the target frame is out of the animation bounds;
freezes the current status. -/
def tweenStart (anim : Option Animation) (p : TweenPlayer)
    (toFrame durationMs : Rat) : Except EngineError TweenPlayer :=
  match anim with
  | none => .error .invalidState
  | some a =>
    if durationMs ≤ 0 then .error .invalidState
    else if toFrame < 0 ∨ a.totalFrames - 1 < toFrame then .error .invalidState
    else
      .ok { p with tween := some (⟨p.playback.currentFrame, toFrame,
        durationMs, 0, p.playback.status⟩ : TweenTarget) }

/-- Modelled from the spec: `update(elapsed_ms) -> frame` (spec §4.2):
linear interpolation `from + (to - from) * min(1, elapsed/duration)`; on
reaching 1.0 the tween completes, is torn down, and control returns to the
PlaybackScheduler in the frozen status.  With no active tween the call is a
no-op returning no frame. -/
def tweenUpdate (p : TweenPlayer) (elapsedMs : Rat) :
    TweenPlayer × Option Rat :=
  match p.tween with
  | none => (p, none)
  | some t =>
    let el := t.elapsedMs + elapsedMs
    let frame := t.fromFrame + (t.toFrame - t.fromFrame) * min 1 (el / t.durationMs)
    if t.durationMs ≤ el then
      ({ playback := { p.playback with currentFrame := frame,
                                       status := t.frozenStatus },
         tween := none }, some frame)
    else
      ({ playback := { p.playback with currentFrame := frame },
         tween := some { t with elapsedMs := el } }, some frame)

/-- Modelled from the spec: `stop()` on the tween engine (spec §4.2):
cancels mid-flight without completing; the frame stays at its last
interpolated value. -/
def tweenStop (p : TweenPlayer) : TweenPlayer :=
  { p with tween := none }

/-! ## TriggerStore (spec §4.3) -/

/-- Modelled from the spec: a trigger value — `Bool(b) | Numeric(f32) |
String(s)` (spec §3), `f32` modelled as a rational. -/
inductive TriggerValue
  | bool (b : Bool)
  | num (x : Rat)
  | str (s : String)
deriving DecidableEq, Repr

/-- The declared kind of a trigger value. -/
inductive TriggerKind
  | bool
  | num
  | str
deriving DecidableEq, Repr

/-- Kind of a value. -/
def TriggerValue.kind : TriggerValue → TriggerKind
  | .bool _ => .bool
  | .num _ => .num
  | .str _ => .str

/-- Modelled from the spec: the TriggerStore — a mapping from unique names
to typed values (spec §3), as an association list. -/
def TriggerStore := List (String × TriggerValue)

instance : DecidableEq TriggerStore :=
  inferInstanceAs (DecidableEq (List (String × TriggerValue)))

instance : Repr TriggerStore :=
  inferInstanceAs (Repr (List (String × TriggerValue)))

/-- Modelled from the spec: `get(name) -> Trigger | NotFound` (spec §4.3). -/
def TriggerStore.get (ts : TriggerStore) (name : String) : Option TriggerValue :=
  match ts.find? (fun p => p.1 == name) with
  | some p => some p.2
  | none => none

/-- Replace the value bound to `name` (the name is known to exist). -/
def TriggerStore.replace (ts : TriggerStore) (name : String)
    (v : TriggerValue) : TriggerStore :=
  ts.map (fun p => if p.1 == name then (p.1, v) else p)

/-- Modelled from the spec: the notifications emitted by the state-machine
engine towards `StateMachineObserver` (spec §4.4/§4.3; the callback surface
is `StateMachineObserver` in `src/dotlottie-ffi/bindings.h` lines 200–212). -/
inductive SMNotification
  | stateExit (s : String)
  | transition (oldState newState : String)
  | stateEntered (s : String)
  | boolChange (name : String) (oldV newV : Bool)
  | numChange (name : String) (oldV newV : Rat)
  | strChange (name : String) (oldV newV : String)
  | inputFired (name : String)
deriving DecidableEq, Repr

/-- Modelled from the spec: the typed
`on_<type>_trigger_value_change(name, old, new)` notification for a value
change (spec §4.3). -/
def typedChange (name : String) : TriggerValue → TriggerValue → List SMNotification
  | .bool a, .bool b => [.boolChange name a b]
  | .num a, .num b => [.numChange name a b]
  | .str a, .str b => [.strChange name a b]
  | _, _ => []

/-- Modelled from the spec: `set(name, value)` (spec §4.3): unknown name
fails with `NotFound`; a value whose kind differs from the declared type
fails with `TypeMismatch`; on an actual value change the typed change
notification and the generic `on_trigger_fired(name)` notification are
queued (returned here as the queue, delivered by the engine after the
current transition evaluation completes); an unchanged value queues
nothing. -/
def TriggerStore.set (ts : TriggerStore) (name : String) (v : TriggerValue) :
    Except EngineError (TriggerStore × List SMNotification) :=
  match ts.get name with
  | none => .error .notFound
  | some old =>
    if old.kind ≠ v.kind then .error .typeMismatch
    else if old = v then .ok (ts.replace name v, [])
    else .ok (ts.replace name v, typedChange name old v ++ [.inputFired name])

/-! ## StateMachineEngine (spec §4.4) -/

/-- Modelled from the spec: the tag of an incoming event, matching
`DotLottieEvent_Tag` in `src/dotlottie-ffi/bindings.h` lines 125–134 plus the
spec §3 custom-named events. -/
inductive EventTag
  | pointerDown
  | pointerUp
  | pointerMove
  | pointerEnter
  | pointerExit
  | click
  | complete
  | custom (name : String)
deriving DecidableEq, Repr

/-- Modelled from the spec: an Event (spec §3): a tagged union of pointer
events carrying animation-local coordinates, `Complete`, or a custom-named
event.  Events are transient messages, never stored. -/
inductive Event
  | pointerDown (x y : Rat)
  | pointerUp (x y : Rat)
  | pointerMove (x y : Rat)
  | pointerEnter (x y : Rat)
  | pointerExit (x y : Rat)
  | click (x y : Rat)
  | complete
  | custom (name : String)
deriving DecidableEq, Repr

/-- The tag of an event. -/
def Event.tag : Event → EventTag
  | .pointerDown _ _ => .pointerDown
  | .pointerUp _ _ => .pointerUp
  | .pointerMove _ _ => .pointerMove
  | .pointerEnter _ _ => .pointerEnter
  | .pointerExit _ _ => .pointerExit
  | .click _ _ => .click
  | .complete => .complete
  | .custom n => .custom n

/-- Modelled from the spec: a numeric comparison operator used in trigger
guards (spec §3, e.g. `numeric_trigger > 5`). -/
inductive NumCmp
  | eq
  | ne
  | lt
  | le
  | gt
  | ge
deriving DecidableEq, Repr

/-- Evaluate a numeric comparison. -/
def NumCmp.eval : NumCmp → Rat → Rat → Bool
  | .eq, a, b => a == b
  | .ne, a, b => a != b
  | .lt, a, b => a < b
  | .le, a, b => a ≤ b
  | .gt, a, b => b < a
  | .ge, a, b => b ≤ a

/-- Modelled from the spec: a Guard (spec §3/glossary): a trigger comparison
(numeric against a constant, string equality/inequality, boolean match) or
an incoming event-tag match. -/
inductive Guard
  | numeric (name : String) (op : NumCmp) (x : Rat)
  | string (name : String) (wantEq : Bool) (s : String)
  | boolean (name : String) (b : Bool)
  | event (t : EventTag)
deriving DecidableEq, Repr

/-- The trigger name and kind a guard reads, if it reads a trigger at all
(event-tag guards read none). -/
def Guard.input : Guard → Option (String × TriggerKind)
  | .numeric n _ _ => some (n, .num)
  | .string n _ _ => some (n, .str)
  | .boolean n _ => some (n, .bool)
  | .event _ => none

/-- Modelled from the spec: guard evaluation (spec §4.4): pure and total,
reading only the TriggerStore and the posted event; an unresolvable
comparison — a missing trigger name or a value of the wrong declared type —
evaluates to `false` rather than erroring. -/
def evalGuard (ts : TriggerStore) (ev : Event) : Guard → Bool
  | .numeric name op x =>
    match ts.get name with
    | some (.num v) => op.eval v x
    | _ => false
  | .string name wantEq s =>
    match ts.get name with
    | some (.str v) => if wantEq then v == s else v != s
    | _ => false
  | .boolean name b =>
    match ts.get name with
    | some (.bool v) => v == b
    | _ => false
  | .event t => ev.tag == t

/-- Modelled from the spec: a Transition (spec §3): target state id, an
ordered list of guards (all AND'd, spec §4.4), and an optional transition
action; actions are modelled as the spec's "set trigger" action. -/
structure Transition where
  target : String
  guards : List Guard
  action : Option (String × TriggerValue)
deriving DecidableEq, Repr

/-- A transition is enabled when all its guards hold (AND semantics,
spec §4.4). -/
def transitionEnabled (ts : TriggerStore) (ev : Event) (t : Transition) : Bool :=
  t.guards.all (evalGuard ts ev)

/-- Modelled from the spec: a State node (spec §3): id, entry/exit action
(modelled as the spec's "set trigger" action), and an ordered list of
outgoing transitions (declaration order). -/
structure SMState where
  id : String
  entryAction : Option (String × TriggerValue)
  exitAction : Option (String × TriggerValue)
  transitions : List Transition
deriving DecidableEq, Repr

/-- Modelled from the spec: a parsed, immutable StateMachineDefinition
(spec §3): state nodes plus the initial state id. -/
structure Machine where
  states : List SMState
  initial : String
deriving DecidableEq, Repr

/-- Look a state up by id. -/
def Machine.findState (m : Machine) (sid : String) : Option SMState :=
  m.states.find? (fun s => s.id == sid)

/-- Lifecycle status of a state machine instance (spec §3/§4.4). -/
inductive SMStatus
  | stopped
  | running
  | paused
deriving DecidableEq, Repr

/-- Modelled from the spec: a StateMachineInstance (spec §3):
current state id, trigger store, lifecycle status. -/
structure SMInstance where
  currentState : String
  triggers : TriggerStore
  status : SMStatus
deriving DecidableEq, Repr

/-- Modelled from the spec: run an optional "set trigger" action against the
store; value-change notifications it produces are queued (spec §4.3); a
failing action set mutates nothing and queues nothing. -/
def applyAction (ts : TriggerStore) :
    Option (String × TriggerValue) → TriggerStore × List SMNotification
  | none => (ts, [])
  | some (n, v) =>
    match ts.set n v with
    | .ok r => r
    | .error _ => (ts, [])

/-- Modelled from the spec: the trigger-store updates and queued
notifications produced by firing transition `t` out of state `st`
(spec §4.4): exit action of the old state, then the transition action, then
the entry action of the new state, their queued trigger notifications
concatenated in that order. -/
def fireUpdates (m : Machine) (ts : TriggerStore) (st : SMState)
    (t : Transition) : TriggerStore × List SMNotification :=
  let r1 := applyAction ts st.exitAction
  let r2 := applyAction r1.1 t.action
  let r3 :=
    match m.findState t.target with
    | some ns => applyAction r2.1 ns.entryAction
    | none => (r2.1, [])
  (r3.1, r1.2 ++ r2.2 ++ r3.2)

/-- Modelled from the spec: `post_event(event)` (spec §4.4).  While Stopped
it fails with `InvalidState`; it is only processed while Running (a Paused
machine ignores it).  The outgoing transitions of `current_state` are
evaluated in declaration order; the first enabled one fires: exit action of
the old state, transition action, set `current_state`, entry action of the
new state, then emit `on_state_exit(old)`, `on_transition(old,new)`,
`on_state_entered(new)` in that order, followed by the trigger-change
notifications queued by the actions (delivered after the transition
evaluation completes, spec §4.3).  If no transition is enabled the event is
a no-op.  At most one transition fires per posted event. -/
def postEvent (m : Machine) (inst : SMInstance) (ev : Event) :
    Except EngineError (SMInstance × List SMNotification) :=
  match inst.status with
  | .stopped => .error .invalidState
  | .paused => .ok (inst, [])
  | .running =>
    match m.findState inst.currentState with
    | none => .ok (inst, [])
    | some st =>
      match st.transitions.find? (transitionEnabled inst.triggers ev) with
      | none => .ok (inst, [])
      | some t =>
        let fu := fireUpdates m inst.triggers st t
        .ok ({ inst with currentState := t.target, triggers := fu.1 },
          [.stateExit inst.currentState,
           .transition inst.currentState t.target,
           .stateEntered t.target] ++ fu.2)

/-- Modelled from the spec: the engine-level `set_<type>_input` call
(spec §4.3, exposed as `dotlottie_state_machine_set_*_input` in
`src/dotlottie-ffi/bindings.h` lines 367–377): runs `TriggerStore.set` and
on success delivers the queued notifications; on failure the instance is
untouched. -/
def SMInstance.setInput (inst : SMInstance) (name : String)
    (v : TriggerValue) :
    Except EngineError (SMInstance × List SMNotification) :=
  match inst.triggers.set name v with
  | .ok (ts, q) => .ok ({ inst with triggers := ts }, q)
  | .error e => .error e

/-- Modelled from the spec: the fresh instance produced by `start()`
(spec §4.4): Running, positioned at the initial state, over a given initial
trigger store. -/
def initialInstance (m : Machine) (ts : TriggerStore) : SMInstance :=
  { currentState := m.initial, triggers := ts, status := .running }

/-- Modelled from the spec: one host call into the running engine — either
`post_event` or a typed input set (spec §8, determinism property). -/
inductive SMOp
  | post (ev : Event)
  | setIn (name : String) (v : TriggerValue)
deriving DecidableEq, Repr

/-- Modelled from the spec: the observable effect of one host call: failed
operations mutate nothing and emit nothing (spec §7). -/
def stepFn (m : Machine) (inst : SMInstance) :
    SMOp → SMInstance × List SMNotification
  | .post ev =>
    match postEvent m inst ev with
    | .ok r => r
    | .error _ => (inst, [])
  | .setIn n v =>
    match inst.setInput n v with
    | .ok r => r
    | .error _ => (inst, [])

/-- Modelled from the spec: a run of the engine — the relation holding
between a start instance, a sequence of host calls, the concatenated
notification trace they emit, and the final instance.  Each step behaves as
`stepFn`. -/
inductive Run (m : Machine) : SMInstance → List SMOp → List SMNotification →
    SMInstance → Prop
  | nil (s : SMInstance) : Run m s [] [] s
  | cons {s s' s'' : SMInstance} {op : SMOp} {ops : List SMOp}
      {ns out : List SMNotification} :
      stepFn m s op = (s', ns) → Run m s' ops out s'' →
      Run m s (op :: ops) (ns ++ out) s''

/-! ## ObserverBus (spec §4.5) -/

/-- Modelled from the spec: the ObserverBus — an ordered list of registered
listener handles (spec §4.5; handles stand for the `shared_ptr` observers of
`subscribe`/`unsubscribe` in `src/dotlottie-ffi/emscripten_bindings.cpp`
lines 184–195). -/
structure ObserverBus where
  listeners : List Nat
deriving DecidableEq, Repr

/-- Modelled from the spec: dispatch of one event on the bus (spec §4.5).
`behave l ev x = true` means listener `l`, upon receiving event `ev`,
unsubscribes handle `x` from inside its callback.  The dispatch delivers the
event to the snapshot of listeners taken at dispatch start (returned as the
delivery log, in order), while the unsubscriptions requested by the
callbacks are applied to the live listener list and take effect from the
next dispatch. -/
def dispatch (behave : Nat → Nat → Nat → Bool) (bus : ObserverBus)
    (ev : Nat) : ObserverBus × List (Nat × Nat) :=
  let snapshot := bus.listeners
  (⟨snapshot.foldl (fun cur l => cur.filter (fun x => !behave l ev x))
      bus.listeners⟩,
   snapshot.map (fun l => (l, ev)))

/-! ## uniffi RustStream byte order

Embedded from `src/dotlottie-ffi/src/dotlottie_player.hpp` lines 156–187:
`RustStream::operator>>` reads `sizeof(T)` bytes and reverses them in place
when `std::endian::native != std::endian::big`; `RustStream::operator<<`
reverses the value's bytes under the same condition and writes them.  A
scalar value is modelled by its byte sequence; `bigNative` says whether the
host is big-endian. -/

/-- Embedding of RustStream `operator<<` on an arithmetic scalar
(`src/dotlottie-ffi/src/dotlottie_player.hpp` lines 173–184): the bytes
written to the stream are the value's native bytes, reversed exactly when
the native endianness is not big-endian. -/
def rustStreamWrite (bigNative : Bool) (valBytes : List Nat) : List Nat :=
  if bigNative then valBytes else valBytes.reverse

/-- Embedding of RustStream `operator>>` on an arithmetic scalar
(`src/dotlottie-ffi/src/dotlottie_player.hpp` lines 160–171): the bytes read
from the stream become the value's native bytes, reversed exactly when the
native endianness is not big-endian. -/
def rustStreamRead (bigNative : Bool) (wireBytes : List Nat) : List Nat :=
  if bigNative then wireBytes else wireBytes.reverse

/-- Little-endian base-256 digits of `v`, width `w`. -/
def leBytes : Nat → Nat → List Nat
  | 0, _ => []
  | w + 1, v => v % 256 :: leBytes w (v / 256)

/-- Big-endian byte representation of `v`, width `w`. -/
def beBytes (w v : Nat) : List Nat :=
  (leBytes w v).reverse

/-- Value of a little-endian byte list. -/
def natOfLeBytes : List Nat → Nat
  | [] => 0
  | b :: bs => b + 256 * natOfLeBytes bs

/-- The native in-memory bytes of a `w`-byte scalar `v`: big-endian order on
a big-endian host, little-endian order otherwise. -/
def nativeBytes (bigNative : Bool) (w v : Nat) : List Nat :=
  if bigNative then beBytes w v else leBytes w v

/-- The scalar value denoted by native bytes `bs`. -/
def valueOfNative (bigNative : Bool) (bs : List Nat) : Nat :=
  if bigNative then natOfLeBytes bs.reverse else natOfLeBytes bs

/-! ## Theorems -/

/-- A running machine whose current state has no enabled outgoing transition
treats the posted event as a no-op. -/
theorem postEvent_no_enabled (m : Machine) (inst : SMInstance) (ev : Event)
    (st : SMState) (hr : inst.status = .running)
    (hs : m.findState inst.currentState = some st)
    (hf : st.transitions.find? (transitionEnabled inst.triggers ev) = none) :
    postEvent m inst ev = .ok (inst, []) := by
  unfold postEvent
  simp only [hr, hs, hf]

/-- Characterization of a firing `post_event`: the first enabled transition
found sets the current state and yields the exit/transition/entered triple
followed by the queued trigger notifications. -/
theorem postEvent_fire (m : Machine) (inst : SMInstance) (ev : Event)
    (st : SMState) (t : Transition) (hr : inst.status = .running)
    (hs : m.findState inst.currentState = some st)
    (hf : st.transitions.find? (transitionEnabled inst.triggers ev) = some t) :
    postEvent m inst ev =
      .ok ({ inst with currentState := t.target
                       triggers := (fireUpdates m inst.triggers st t).1 },
        [.stateExit inst.currentState,
         .transition inst.currentState t.target,
         .stateEntered t.target] ++ (fireUpdates m inst.triggers st t).2) := by
  unfold postEvent
  simp only [hr, hs, hf]

/-- A little-endian byte list of width `w` decodes back to the value it was
produced from, provided the value fits in `w` bytes. -/
theorem natOfLeBytes_leBytes (w : Nat) : ∀ v : Nat, v < 256 ^ w →
    natOfLeBytes (leBytes w v) = v := by
  induction w with
  | zero =>
    intro v h
    simp [leBytes, natOfLeBytes]
    omega
  | succ w ih =>
    intro v h
    have hv : v / 256 < 256 ^ w := by
      rw [Nat.div_lt_iff_lt_mul (by norm_num)]
      calc v < 256 ^ (w + 1) := h
        _ = 256 ^ w * 256 := by ring
    simp [leBytes, natOfLeBytes, ih _ hv]
    omega

/-- C10: writing an arithmetic scalar to a uniffi RustStream with
`operator<<` and reading it back at the same position with `operator>>`
yields the same value, on big-endian and non-big-endian hosts alike, and the
bytes on the wire are the big-endian representation regardless of host
endianness — both operators reverse the byte order exactly when the native
endianness is not big-endian
(`src/dotlottie-ffi/src/dotlottie_player.hpp` lines 156–187). -/
theorem rustStream_roundtrip (big : Bool) (w v : Nat) (h : v < 256 ^ w) :
    rustStreamWrite big (nativeBytes big w v) = beBytes w v ∧
    valueOfNative big
      (rustStreamRead big (rustStreamWrite big (nativeBytes big w v))) = v := by
  cases big <;>
    simp [rustStreamWrite, rustStreamRead, nativeBytes, valueOfNative, beBytes,
      List.reverse_reverse, natOfLeBytes_leBytes w v h]

/-- Witness for C10 at the four-byte value 0x12345678 on a little-endian
host. -/
theorem rustStream_roundtrip_witness :
    rustStreamWrite false (nativeBytes false 4 305419896) = beBytes 4 305419896 ∧
    valueOfNative false
      (rustStreamRead false
        (rustStreamWrite false (nativeBytes false 4 305419896))) = 305419896 :=
  rustStream_roundtrip false 4 305419896 (by norm_num)

/-- C5: guard evaluation is a total, deterministic, side-effect-free Boolean
function of the trigger store and the posted event (it is a pure Lean
function into `Bool`), and an unresolvable comparison — the guard's trigger
name missing from the store, or bound to a value of the wrong declared
kind — evaluates to `false` rather than erroring. -/
theorem evalGuard_unresolvable_false (ts : TriggerStore) (ev : Event)
    (g : Guard) (n : String) (k : TriggerKind)
    (hg : g.input = some (n, k))
    (hm : ∀ v, ts.get n = some v → v.kind ≠ k) :
    evalGuard ts ev g = false := by
  cases g with
  | numeric n' op x =>
    simp only [Guard.input, Option.some.injEq, Prod.mk.injEq] at hg
    obtain ⟨hn, hk⟩ := hg
    rw [← hn, ← hk] at hm
    cases hv : ts.get n' with
    | none => simp [evalGuard, hv]
    | some v =>
      cases v with
      | num x' => exact absurd rfl (hm _ hv)
      | bool b => simp [evalGuard, hv]
      | str s => simp [evalGuard, hv]
  | string n' wantEq s =>
    simp only [Guard.input, Option.some.injEq, Prod.mk.injEq] at hg
    obtain ⟨hn, hk⟩ := hg
    rw [← hn, ← hk] at hm
    cases hv : ts.get n' with
    | none => simp [evalGuard, hv]
    | some v =>
      cases v with
      | str s' => exact absurd rfl (hm _ hv)
      | bool b => simp [evalGuard, hv]
      | num x => simp [evalGuard, hv]
  | boolean n' b =>
    simp only [Guard.input, Option.some.injEq, Prod.mk.injEq] at hg
    obtain ⟨hn, hk⟩ := hg
    rw [← hn, ← hk] at hm
    cases hv : ts.get n' with
    | none => simp [evalGuard, hv]
    | some v =>
      cases v with
      | bool b' => exact absurd rfl (hm _ hv)
      | num x => simp [evalGuard, hv]
      | str s => simp [evalGuard, hv]
  | event t => simp [Guard.input] at hg

/-- Witness for C5: a numeric guard over a missing trigger name evaluates to
`false` on an empty store. -/
theorem evalGuard_unresolvable_false_witness :
    evalGuard [] Event.complete (Guard.numeric "score" .ge 10) = false :=
  evalGuard_unresolvable_false [] Event.complete
    (Guard.numeric "score" .ge 10) "score" .num rfl
    (by intro v hv; simp [TriggerStore.get, List.find?] at hv)

/-- C6: `set(name, value)` on the trigger store fails with `NotFound` on an
unknown name and with `TypeMismatch` when the value's kind differs from the
declared type; on success it queues a typed value-change notification plus a
generic fired notification exactly when the new value differs from the old
one; and the notifications an event's transition actions queue are delivered
only after the transition notifications — every non-empty `post_event`
notification list starts with the exit/transition/entered triple, queued
trigger notifications following it. -/
theorem triggerStore_set_spec (ts : TriggerStore) (name : String)
    (v : TriggerValue) :
    (ts.get name = none → ts.set name v = .error .notFound) ∧
    (∀ old, ts.get name = some old → old.kind ≠ v.kind →
      ts.set name v = .error .typeMismatch) ∧
    (∀ old, ts.get name = some old → old.kind = v.kind →
      ts.set name v = .ok (ts.replace name v,
        if old = v then [] else typedChange name old v ++ [.inputFired name])) ∧
    (∀ (m : Machine) (inst : SMInstance) (ev : Event) (inst' : SMInstance)
        (ns : List SMNotification),
      postEvent m inst ev = .ok (inst', ns) → ns ≠ [] →
      ∃ rest, ns = .stateExit inst.currentState ::
        .transition inst.currentState inst'.currentState ::
        .stateEntered inst'.currentState :: rest) :=
  by
  refine ⟨?_, ?_, ?_, ?_⟩
  · intro h
    simp [TriggerStore.set, h]
  · intro old h hk
    simp [TriggerStore.set, h, hk]
  · intro old h hk
    by_cases hv : old = v <;> simp [TriggerStore.set, h, hk, hv]
  · intro m inst ev inst' ns hpost hne
    cases hst : inst.status with
    | stopped =>
      unfold postEvent at hpost
      rw [hst] at hpost
      exact absurd hpost (by simp)
    | paused =>
      unfold postEvent at hpost
      rw [hst] at hpost
      simp at hpost
      exact absurd hpost.2 hne
    | running =>
      cases hfind : m.findState inst.currentState with
      | none =>
        unfold postEvent at hpost
        rw [hst, hfind] at hpost
        simp at hpost
        exact absurd hpost.2 hne
      | some st =>
        cases henb : st.transitions.find? (transitionEnabled inst.triggers ev) with
        | none =>
          rw [postEvent_no_enabled m inst ev st hst hfind henb] at hpost
          simp at hpost
          exact absurd hpost.2 hne
        | some t =>
          rw [postEvent_fire m inst ev st t hst hfind henb] at hpost
          simp at hpost
          obtain ⟨hinst, hns⟩ := hpost
          subst hinst
          subst hns
          exact ⟨(fireUpdates m inst.triggers st t).2, by simp⟩

/-- Witness for C6: on a one-entry store, setting `score` from 0 to 5 queues
the typed change and the fired notification. -/
theorem triggerStore_set_spec_witness :
    TriggerStore.set [("score", TriggerValue.num 0)] "score" (TriggerValue.num 5) =
      .ok ([("score", TriggerValue.num 5)],
        [.numChange "score" 0 5, .inputFired "score"]) := by
  have h := (triggerStore_set_spec [("score", TriggerValue.num 0)] "score"
      (TriggerValue.num 5)).2.2.1 (TriggerValue.num 0) (by decide) (by decide)
  simpa [TriggerStore.replace, typedChange] using h

/-- A handle surviving a chain of filters survived every filter in the
chain. -/
theorem mem_foldl_filter (q : Nat → Nat → Bool) (xs : List Nat) :
    ∀ (init : List Nat) (a : Nat),
      a ∈ xs.foldl (fun cur l => cur.filter (fun x => !q l x)) init →
      a ∈ init ∧ ∀ l ∈ xs, q l a = false := by
  induction xs with
  | nil =>
    intro init a h
    exact ⟨h, by intro l hl; cases hl⟩
  | cons x xs ih =>
    intro init a h
    obtain ⟨h1, h2⟩ := ih (init.filter (fun y => !q x y)) a h
    rw [List.mem_filter] at h1
    refine ⟨h1.1, ?_⟩
    intro l hl
    rcases List.mem_cons.mp hl with rfl | hl'
    · simpa using h1.2
    · exact h2 l hl'

/-- C8: dispatch delivers, in order, to the snapshot of listeners taken at
dispatch start, so a listener that unsubscribes itself from inside its
callback still receives the event being dispatched and receives nothing
from the next dispatch. -/
theorem dispatch_unsubscribe_safe (behave : Nat → Nat → Nat → Bool)
    (bus : ObserverBus) (ev l : Nat)
    (hl : l ∈ bus.listeners) (hu : behave l ev l = true) :
    (dispatch behave bus ev).2 = bus.listeners.map (fun x => (x, ev)) ∧
    (l, ev) ∈ (dispatch behave bus ev).2 ∧
    ∀ ev₂, (l, ev₂) ∉ (dispatch behave ((dispatch behave bus ev).1) ev₂).2 := by
  refine ⟨rfl, ?_, ?_⟩
  · exact List.mem_map.mpr ⟨l, hl, rfl⟩
  · intro ev₂ hmem
    have hl₁ : l ∈ ((dispatch behave bus ev).1).listeners := by
      rcases List.mem_map.mp hmem with ⟨x, hx, hxe⟩
      cases hxe
      exact hx
    have := mem_foldl_filter (fun a x => behave a ev x) bus.listeners
      bus.listeners l hl₁
    have hfalse : behave l ev l = false := this.2 l hl
    rw [hu] at hfalse
    cases hfalse

/-- Witness for C8: a single self-unsubscribing listener receives the
current event and not the next one. -/
theorem dispatch_unsubscribe_safe_witness :
    (dispatch (fun _ _ _ => true) ⟨[5]⟩ 0).2 =
      List.map (fun x => (x, 0)) [5] ∧
    (5, 0) ∈ (dispatch (fun _ _ _ => true) ⟨[5]⟩ 0).2 ∧
    (5, 7) ∉ (dispatch (fun _ _ _ => true)
      ((dispatch (fun _ _ _ => true) ⟨[5]⟩ 0).1) 7).2 := by
  have h := dispatch_unsubscribe_safe (fun _ _ _ => true) ⟨[5]⟩ 0 5
    (by decide) (by decide)
  exact ⟨h.1, h.2.1, h.2.2 7⟩

/-- C4: while a tween with positive duration is in flight, `update` returns
the linear interpolation `from + (to - from) * min(1, elapsed/duration)`;
the update whose accumulated elapsed time reaches the duration yields
exactly the target frame, tears the tween down (`is_active` becomes false)
and returns control in the status frozen when the tween began; an update
that does not yet reach the duration keeps the tween active and (when the
endpoints differ) does not yet yield the target frame; and a successful
`start(to, duration)` freezes the then-current status and captures the
then-current frame. -/
theorem tweenUpdate_spec (p : TweenPlayer) (t : TweenTarget) (e : Rat)
    (ht : p.tween = some t) (hd : 0 < t.durationMs) :
    (tweenUpdate p e).2 = some (t.fromFrame +
      (t.toFrame - t.fromFrame) * min 1 ((t.elapsedMs + e) / t.durationMs)) ∧
    (t.durationMs ≤ t.elapsedMs + e →
      (tweenUpdate p e).2 = some t.toFrame ∧
      (tweenUpdate p e).1.playback.currentFrame = t.toFrame ∧
      (tweenUpdate p e).1.isActive = false ∧
      (tweenUpdate p e).1.playback.status = t.frozenStatus) ∧
    (t.elapsedMs + e < t.durationMs →
      (tweenUpdate p e).1.isActive = true ∧
      (t.fromFrame ≠ t.toFrame → (tweenUpdate p e).2 ≠ some t.toFrame)) ∧
    (∀ (anim : Option Animation) (q q' : TweenPlayer) (toF d : Rat),
      tweenStart anim q toF d = .ok q' →
      q'.tween = some ⟨q.playback.currentFrame, toF, d, 0,
        q.playback.status⟩) := by
  have hone : t.durationMs ≤ t.elapsedMs + e →
      min 1 ((t.elapsedMs + e) / t.durationMs) = 1 := by
    intro hle
    have : (1 : ℚ) ≤ (t.elapsedMs + e) / t.durationMs :=
      (le_div_iff₀ hd).mpr (by linarith)
    exact min_eq_left this
  have hlt : t.elapsedMs + e < t.durationMs →
      min 1 ((t.elapsedMs + e) / t.durationMs) = (t.elapsedMs + e) / t.durationMs := by
    intro hlt'
    have : (t.elapsedMs + e) / t.durationMs < 1 := (div_lt_one hd).mpr hlt'
    exact min_eq_right this.le
  have hval : (tweenUpdate p e).2 = some (t.fromFrame +
      (t.toFrame - t.fromFrame) * min 1 ((t.elapsedMs + e) / t.durationMs)) := by
    unfold tweenUpdate
    rw [ht]
    by_cases hc : t.durationMs ≤ t.elapsedMs + e <;> simp [hc]
  refine ⟨hval, ?_, ?_, ?_⟩
  · intro hle
    have hframe : t.fromFrame + (t.toFrame - t.fromFrame) *
        min 1 ((t.elapsedMs + e) / t.durationMs) = t.toFrame := by
      rw [hone hle]; ring
    unfold tweenUpdate
    rw [ht]
    simp [hle, TweenPlayer.isActive, hframe]
  · intro hlt'
    have hnle : ¬ t.durationMs ≤ t.elapsedMs + e := not_le.mpr hlt'
    constructor
    · unfold tweenUpdate
      rw [ht]
      simp [hnle, TweenPlayer.isActive]
    · intro hne heq
      rw [hval] at heq
      simp only [Option.some.injEq] at heq
      rw [hlt hlt'] at heq
      have hq1 : (t.elapsedMs + e) / t.durationMs < 1 := (div_lt_one hd).mpr hlt'
      have hsub : t.toFrame - t.fromFrame ≠ 0 := sub_ne_zero.mpr (Ne.symm hne)
      have hmul : (t.toFrame - t.fromFrame) * ((t.elapsedMs + e) / t.durationMs) =
          t.toFrame - t.fromFrame := by linarith
      have heq1 : (t.elapsedMs + e) / t.durationMs = 1 :=
        mul_left_cancel₀ hsub (by rw [mul_one]; exact hmul)
      exact absurd heq1 (ne_of_lt hq1)
  · intro anim q q' toF d hstart
    cases anim with
    | none => exact absurd hstart (by simp [tweenStart])
    | some a =>
      unfold tweenStart at hstart
      by_cases h1 : d ≤ 0
      · simp [h1] at hstart
      · by_cases h2 : toF < 0 ∨ a.totalFrames - 1 < toF
        · simp [h1, h2] at hstart
        · simp [h1, h2] at hstart
          rw [← hstart]

/-- Witness for C4: a tween from frame 0 to frame 8 over 10 ms, updated by
10 ms, completes at exactly frame 8, is torn down, and restores the frozen
Paused status. -/
theorem tweenUpdate_spec_witness :
    (tweenUpdate ⟨⟨0, 1, 0, .playing⟩, some ⟨0, 8, 10, 0, .paused⟩⟩ 10).2 =
      some 8 ∧
    (tweenUpdate ⟨⟨0, 1, 0, .playing⟩,
      some ⟨0, 8, 10, 0, .paused⟩⟩ 10).1.isActive = false ∧
    (tweenUpdate ⟨⟨0, 1, 0, .playing⟩,
      some ⟨0, 8, 10, 0, .paused⟩⟩ 10).1.playback.status = Status.paused := by
  have h := (tweenUpdate_spec ⟨⟨0, 1, 0, .playing⟩, some ⟨0, 8, 10, 0, .paused⟩⟩
    ⟨0, 8, 10, 0, .paused⟩ 10 rfl (by norm_num)).2.1 (by norm_num)
  exact ⟨h.1, h.2.2.1, h.2.2.2⟩

/-- A zero-length or negative segment range makes `advance` fail with
`InvalidState`. -/
theorem advance_invalid_segment (a : Animation) (cfg : PlaybackConfig)
    (st : PlaybackState) (e : Rat)
    (hseg : segEnd cfg a ≤ segStart cfg a) :
    advance (some a) cfg st e = .error .invalidState := by
  unfold advance
  simp [hseg]

/-- A player that is not Playing is left unchanged by `advance`. -/
theorem advance_not_playing (a : Animation) (cfg : PlaybackConfig)
    (st : PlaybackState) (e : Rat)
    (hseg : ¬ segEnd cfg a ≤ segStart cfg a) (hst : st.status ≠ .playing) :
    advance (some a) cfg st e =
      .ok (st, ⟨reportFrame cfg st.currentFrame, false, false⟩) := by
  unfold advance
  simp [hseg, hst]

/-- Forward advancement strictly inside the segment adds the frame delta. -/
theorem advance_forward_inside (a : Animation) (cfg : PlaybackConfig)
    (st : PlaybackState) (e : Rat)
    (hseg : ¬ segEnd cfg a ≤ segStart cfg a) (hst : st.status = .playing)
    (hmode : cfg.mode = .forward)
    (hcand : ¬ segEnd cfg a ≤ st.currentFrame + e * cfg.speed * a.framesPerMs) :
    advance (some a) cfg st e =
      .ok ({ st with currentFrame :=
               st.currentFrame + e * cfg.speed * a.framesPerMs },
        ⟨reportFrame cfg (st.currentFrame + e * cfg.speed * a.framesPerMs),
         false, false⟩) := by
  unfold advance
  simp [hseg, hst, hmode, hcand]

/-- Forward advancement reaching the segment end with the loop policy
exhausted clamps at the end and completes. -/
theorem advance_forward_complete (a : Animation) (cfg : PlaybackConfig)
    (st : PlaybackState) (e : Rat)
    (hseg : ¬ segEnd cfg a ≤ segStart cfg a) (hst : st.status = .playing)
    (hmode : cfg.mode = .forward)
    (hcl : (cfg.loopAnimation &&
      (cfg.loopCount == 0 || st.loopsCompleted < cfg.loopCount)) = false)
    (hcand : segEnd cfg a ≤ st.currentFrame + e * cfg.speed * a.framesPerMs) :
    advance (some a) cfg st e =
      .ok ({ st with currentFrame := segEnd cfg a, status := .complete },
        ⟨reportFrame cfg (segEnd cfg a), false, true⟩) := by
  unfold advance
  simp [hseg, hst, hmode, hcand, hcl]

/-- Forward advancement reaching the segment end with the loop policy still
permitting wraps to the segment start and increments the loop counter. -/
theorem advance_forward_wrap (a : Animation) (cfg : PlaybackConfig)
    (st : PlaybackState) (e : Rat)
    (hseg : ¬ segEnd cfg a ≤ segStart cfg a) (hst : st.status = .playing)
    (hmode : cfg.mode = .forward)
    (hcl : (cfg.loopAnimation &&
      (cfg.loopCount == 0 || st.loopsCompleted < cfg.loopCount)) = true)
    (hcand : segEnd cfg a ≤ st.currentFrame + e * cfg.speed * a.framesPerMs) :
    advance (some a) cfg st e =
      .ok ({ st with currentFrame := segStart cfg a
                     loopsCompleted := st.loopsCompleted + 1 },
        ⟨reportFrame cfg (segStart cfg a), true, false⟩) := by
  unfold advance
  simp [hseg, hst, hmode, hcand, hcl]

/-- C2: with positive speed, Forward mode and looping disabled, each
`advance` call is monotonically non-decreasing in `current_frame`; a call
that reaches the segment end clamps the frame there and sets the status to
Complete; and once the status is Complete every further `advance` call
leaves the playback state unchanged. -/
theorem advance_forward_monotone (a : Animation) (cfg : PlaybackConfig)
    (st : PlaybackState) (e : Rat)
    (hmode : cfg.mode = .forward) (hloop : cfg.loopAnimation = false)
    (hspeed : 0 < cfg.speed) (he : 0 ≤ e) (hfps : 0 < a.framesPerMs)
    (hle : st.currentFrame ≤ segEnd cfg a) :
    st.currentFrame ≤ (advanceTotal (some a) cfg st e).currentFrame ∧
    (st.status = .playing → segStart cfg a < segEnd cfg a →
      segEnd cfg a ≤ st.currentFrame + e * cfg.speed * a.framesPerMs →
      (advanceTotal (some a) cfg st e).currentFrame = segEnd cfg a ∧
      (advanceTotal (some a) cfg st e).status = .complete) ∧
    (st.status = .complete → advanceTotal (some a) cfg st e = st) := by
  have hcl : (cfg.loopAnimation &&
      (cfg.loopCount == 0 || st.loopsCompleted < cfg.loopCount)) = false := by
    rw [hloop]
    rfl
  by_cases hseg : segEnd cfg a ≤ segStart cfg a
  · have hadv : advanceTotal (some a) cfg st e = st := by
      unfold advanceTotal
      rw [advance_invalid_segment a cfg st e hseg]
    refine ⟨by rw [hadv], ?_, fun _ => hadv⟩
    intro _ hlt _
    exact absurd hseg (not_le.mpr hlt)
  · by_cases hst : st.status = .playing
    · by_cases hcand : segEnd cfg a ≤ st.currentFrame + e * cfg.speed * a.framesPerMs
      · have hadv : advanceTotal (some a) cfg st e =
            { st with currentFrame := segEnd cfg a, status := .complete } := by
          unfold advanceTotal
          rw [advance_forward_complete a cfg st e hseg hst hmode hcl hcand]
        refine ⟨by rw [hadv]; exact hle, fun _ _ _ => by rw [hadv]; exact ⟨rfl, rfl⟩, ?_⟩
        intro hc
        rw [hst] at hc
        cases hc
      · have hadv : advanceTotal (some a) cfg st e =
            { st with currentFrame :=
                st.currentFrame + e * cfg.speed * a.framesPerMs } := by
          unfold advanceTotal
          rw [advance_forward_inside a cfg st e hseg hst hmode hcand]
        have hdelta : 0 ≤ e * cfg.speed * a.framesPerMs :=
          mul_nonneg (mul_nonneg he hspeed.le) hfps.le
        refine ⟨by rw [hadv]; simp; linarith, ?_, ?_⟩
        · intro _ _ hge
          exact absurd hge hcand
        · intro hc
          rw [hst] at hc
          cases hc
    · have hadv : advanceTotal (some a) cfg st e = st := by
        unfold advanceTotal
        rw [advance_not_playing a cfg st e hseg hst]
      exact ⟨by rw [hadv], fun hp => absurd hp hst, fun _ => hadv⟩

/-- Witness for C2: from frame 0 of an 11-frame animation at speed 1 with a
10 ms tick, advancing reaches the segment end (frame 10), completes, and is
frame-monotone. -/
theorem advance_forward_monotone_witness :
    (⟨0, 1, 0, .playing⟩ : PlaybackState).currentFrame ≤
      (advanceTotal (some ⟨11, 1⟩) ⟨.forward, false, 0, 1, true, none⟩
        ⟨0, 1, 0, .playing⟩ 10).currentFrame ∧
    (advanceTotal (some ⟨11, 1⟩) ⟨.forward, false, 0, 1, true, none⟩
      ⟨0, 1, 0, .playing⟩ 10).currentFrame =
        segEnd ⟨.forward, false, 0, 1, true, none⟩ ⟨11, 1⟩ ∧
    (advanceTotal (some ⟨11, 1⟩) ⟨.forward, false, 0, 1, true, none⟩
      ⟨0, 1, 0, .playing⟩ 10).status = Status.complete := by
  have h := advance_forward_monotone ⟨11, 1⟩ ⟨.forward, false, 0, 1, true, none⟩
    ⟨0, 1, 0, .playing⟩ 10 rfl rfl (by norm_num) (by norm_num) (by norm_num)
    (by norm_num [segEnd])
  have h2 := h.2.1 rfl (by norm_num [segStart, segEnd]) (by norm_num [segEnd])
  exact ⟨h.1, h2.1, h2.2⟩

/-- C7: `advance` with no animation loaded, or with a zero-length or
negative segment range, fails with `InvalidState` and leaves the playback
state unchanged; and every failed engine operation — a failing `advance`, a
failing `post_event`, a failing input set — leaves `PlaybackState` and
`StateMachineInstance` exactly as they were, emitting nothing. -/
theorem failed_ops_leave_state (cfg : PlaybackConfig) (st : PlaybackState)
    (e : Rat) :
    (advance none cfg st e = .error .invalidState ∧
      advanceTotal none cfg st e = st) ∧
    (∀ a : Animation, segEnd cfg a ≤ segStart cfg a →
      advance (some a) cfg st e = .error .invalidState ∧
      advanceTotal (some a) cfg st e = st) ∧
    (∀ (anim : Option Animation) (err : EngineError),
      advance anim cfg st e = .error err → advanceTotal anim cfg st e = st) ∧
    (∀ (m : Machine) (inst : SMInstance) (ev : Event) (err : EngineError),
      postEvent m inst ev = .error err → stepFn m inst (.post ev) = (inst, [])) ∧
    (∀ (m : Machine) (inst : SMInstance) (n : String) (v : TriggerValue)
        (err : EngineError),
      inst.setInput n v = .error err →
      stepFn m inst (.setIn n v) = (inst, [])) := by
  refine ⟨⟨rfl, rfl⟩, ?_, ?_, ?_, ?_⟩
  · intro a hseg
    have h := advance_invalid_segment a cfg st e hseg
    exact ⟨h, by unfold advanceTotal; rw [h]⟩
  · intro anim err h
    unfold advanceTotal
    rw [h]
  · intro m inst ev err h
    simp only [stepFn, h]
  · intro m inst n v err h
    simp only [stepFn, h]

/-- Witness for C7: `advance` with no animation loaded fails with
`InvalidState` and leaves the state untouched. -/
theorem failed_ops_leave_state_witness :
    advance none ⟨.forward, false, 0, 1, true, none⟩ ⟨0, 1, 0, .playing⟩ 10 =
      .error .invalidState ∧
    advanceTotal none ⟨.forward, false, 0, 1, true, none⟩
      ⟨0, 1, 0, .playing⟩ 10 = ⟨0, 1, 0, .playing⟩ :=
  (failed_ops_leave_state ⟨.forward, false, 0, 1, true, none⟩
    ⟨0, 1, 0, .playing⟩ 10).1

/-- List search returns the element at the first index satisfying the
predicate. -/
theorem find_first_index {α : Type} (p : α → Bool) :
    ∀ (l : List α) (i : Nat) (hi : i < l.length),
      p (l.get ⟨i, hi⟩) = true →
      (∀ (j : Nat) (hj : j < l.length), j < i → p (l.get ⟨j, hj⟩) = false) →
      l.find? p = some (l.get ⟨i, hi⟩) := by
  intro l
  induction l with
  | nil =>
    intro i hi
    exact absurd hi (Nat.not_lt_zero i)
  | cons x xs ih =>
    intro i hi hp hfirst
    cases i with
    | zero =>
      have hpx : p x = true := hp
      exact List.find?_cons_of_pos _ hpx
    | succ i' =>
      have hpx : p x = false :=
        hfirst 0 (Nat.succ_pos _) (Nat.succ_pos i')
      rw [List.find?_cons_of_neg _ (by simp [hpx])]
      exact ih i' (Nat.lt_of_succ_lt_succ hi) hp
        (fun j hj hji => hfirst (j + 1) (Nat.succ_lt_succ hj)
          (Nat.succ_lt_succ hji))

/-- C1: while Running, `post_event` examines the outgoing transitions of the
current state in declaration order; if none is enabled the event is a no-op
emitting nothing; if index `i` is the first enabled transition then exactly
that transition fires, the current state becomes its target, and the
notifications are `on_state_exit(old)`, `on_transition(old,new)`,
`on_state_entered(new)` in exactly that order (followed only by the queued
trigger notifications of the actions). -/
theorem postEvent_first_enabled (m : Machine) (inst : SMInstance) (ev : Event)
    (st : SMState) (hr : inst.status = .running)
    (hs : m.findState inst.currentState = some st) :
    ((∀ t ∈ st.transitions, transitionEnabled inst.triggers ev t = false) →
      postEvent m inst ev = .ok (inst, [])) ∧
    (∀ (i : Nat) (hi : i < st.transitions.length),
      transitionEnabled inst.triggers ev (st.transitions.get ⟨i, hi⟩) = true →
      (∀ (j : Nat) (hj : j < st.transitions.length), j < i →
        transitionEnabled inst.triggers ev (st.transitions.get ⟨j, hj⟩) = false) →
      postEvent m inst ev =
        .ok ({ inst with
               currentState := (st.transitions.get ⟨i, hi⟩).target
               triggers := (fireUpdates m inst.triggers st
                 (st.transitions.get ⟨i, hi⟩)).1 },
          [.stateExit inst.currentState,
           .transition inst.currentState (st.transitions.get ⟨i, hi⟩).target,
           .stateEntered (st.transitions.get ⟨i, hi⟩).target] ++
          (fireUpdates m inst.triggers st (st.transitions.get ⟨i, hi⟩)).2)) := by
  constructor
  · intro hnone
    have hf : st.transitions.find? (transitionEnabled inst.triggers ev) = none :=
      List.find?_eq_none.mpr (by
        intro t ht
        simp [hnone t ht])
    exact postEvent_no_enabled m inst ev st hr hs hf
  · intro i hi hp hfirst
    have hf : st.transitions.find? (transitionEnabled inst.triggers ev) =
        some (st.transitions.get ⟨i, hi⟩) :=
      find_first_index (transitionEnabled inst.triggers ev)
        st.transitions i hi hp hfirst
    exact postEvent_fire m inst ev st (st.transitions.get ⟨i, hi⟩) hr hs hf

/-- Witness for C1 — the spec §8 guard example: with `score = 10`, posting
Complete in state A fires the transition guarded by `score ≥ 10` into state
B and emits exit(A), transition(A,B), entered(B) in that order. -/
theorem postEvent_first_enabled_witness :
    postEvent
      ⟨[⟨"A", none, none, [⟨"B", [.numeric "score" .ge 10], none⟩]⟩,
        ⟨"B", none, none, []⟩], "A"⟩
      ⟨"A", [("score", TriggerValue.num 10)], .running⟩ Event.complete =
      .ok (⟨"B", [("score", TriggerValue.num 10)], .running⟩,
        [.stateExit "A", .transition "A" "B", .stateEntered "B"]) := by
  have h := (postEvent_first_enabled
      ⟨[⟨"A", none, none, [⟨"B", [.numeric "score" .ge 10], none⟩]⟩,
        ⟨"B", none, none, []⟩], "A"⟩
      ⟨"A", [("score", TriggerValue.num 10)], .running⟩ Event.complete
      ⟨"A", none, none, [⟨"B", [.numeric "score" .ge 10], none⟩]⟩
      rfl (by decide)).2 0 (by decide) (by decide)
      (fun j hj hj0 => absurd hj0 (Nat.not_lt_zero j))
  rw [h]
  rfl

/-- Two runs of the engine from the same instance over the same host-call
sequence emit the same notification trace and end in the same instance. -/
theorem run_deterministic_aux (m : Machine) {s : SMInstance} {ops : List SMOp}
    {out₁ : List SMNotification} {s₁ : SMInstance}
    (h₁ : Run m s ops out₁ s₁) :
    ∀ {out₂ : List SMNotification} {s₂ : SMInstance},
      Run m s ops out₂ s₂ → out₁ = out₂ ∧ s₁ = s₂ := by
  induction h₁ with
  | nil s =>
    intro out₂ s₂ h₂
    cases h₂
    exact ⟨rfl, rfl⟩
  | cons hstep hrun ih =>
    intro out₂ s₂ h₂
    cases h₂ with
    | cons hstep₂ hrun₂ =>
      rw [hstep] at hstep₂
      injection hstep₂ with he1 he2
      rw [← he1] at hrun₂
      obtain ⟨ho, hs⟩ := ih hrun₂
      exact ⟨by rw [he2, ho], hs⟩

/-- C9: the state machine engine is deterministic — two runs that start from
the initial state of the same loaded definition and apply an identical
sequence of `post_event`/input-set calls emit identical notification
sequences (and end in identical instances). -/
theorem run_deterministic (m : Machine) (ts0 : TriggerStore) (ops : List SMOp)
    (out₁ out₂ : List SMNotification) (s₁ s₂ : SMInstance)
    (h₁ : Run m (initialInstance m ts0) ops out₁ s₁)
    (h₂ : Run m (initialInstance m ts0) ops out₂ s₂) :
    out₁ = out₂ ∧ s₁ = s₂ :=
  run_deterministic_aux m h₁ h₂

/-- Witness for C9: two identical one-event runs on an empty definition
agree. -/
theorem run_deterministic_witness :
    ([] : List SMNotification) = [] ∧
    initialInstance ⟨[], "A"⟩ [] = initialInstance ⟨[], "A"⟩ [] := by
  have hstep : stepFn ⟨[], "A"⟩ (initialInstance ⟨[], "A"⟩ [])
      (SMOp.post Event.complete) = (initialInstance ⟨[], "A"⟩ [], []) := by
    decide
  have hr : Run ⟨[], "A"⟩ (initialInstance ⟨[], "A"⟩ [])
      [SMOp.post Event.complete] ([] ++ [])
      (initialInstance ⟨[], "A"⟩ []) :=
    Run.cons hstep (Run.nil _)
  exact run_deterministic ⟨[], "A"⟩ [] [SMOp.post Event.complete]
    ([] ++ []) ([] ++ []) (initialInstance ⟨[], "A"⟩ [])
    (initialInstance ⟨[], "A"⟩ []) hr hr

/-- With the loop policy still permitting, each tick that crosses the whole
segment wraps and increments the loop counter until the counter reaches the
configured count, whereupon the scheduler completes at the segment end. -/
theorem loop_reaches_aux (a : Animation) (cfg : PlaybackConfig) (e : Rat)
    (hmode : cfg.mode = .forward) (hloop : cfg.loopAnimation = true)
    (hN : 0 < cfg.loopCount)
    (hseg : segStart cfg a < segEnd cfg a)
    (hdelta : segEnd cfg a - segStart cfg a ≤ e * cfg.speed * a.framesPerMs) :
    ∀ (k : Nat) (st : PlaybackState), st.status = .playing →
      st.loopsCompleted + k = cfg.loopCount →
      segStart cfg a ≤ st.currentFrame → st.currentFrame ≤ segEnd cfg a →
      (advanceN (some a) cfg e (k + 1) st).loopsCompleted = cfg.loopCount ∧
      (advanceN (some a) cfg e (k + 1) st).status = .complete ∧
      (advanceN (some a) cfg e (k + 1) st).currentFrame = segEnd cfg a := by
  have hnseg : ¬ segEnd cfg a ≤ segStart cfg a := not_le.mpr hseg
  intro k
  induction k with
  | zero =>
    intro st hst hloops hlo hhi
    have hloops0 : st.loopsCompleted = cfg.loopCount := by omega
    have hcand : segEnd cfg a ≤ st.currentFrame + e * cfg.speed * a.framesPerMs := by
      linarith
    have hcl : (cfg.loopAnimation &&
        (cfg.loopCount == 0 || st.loopsCompleted < cfg.loopCount)) = false := by
      simp [hloop, hloops0, Nat.lt_irrefl, Nat.pos_iff_ne_zero.mp hN]
    have hadv : advanceTotal (some a) cfg st e =
        { st with currentFrame := segEnd cfg a, status := .complete } := by
      unfold advanceTotal
      rw [advance_forward_complete a cfg st e hnseg hst hmode hcl hcand]
    have h1 : advanceN (some a) cfg e (0 + 1) st =
        advanceTotal (some a) cfg st e := rfl
    rw [h1, hadv]
    exact ⟨hloops0, rfl, rfl⟩
  | succ k ih =>
    intro st hst hloops hlo hhi
    have hlt : st.loopsCompleted < cfg.loopCount := by omega
    have hcand : segEnd cfg a ≤ st.currentFrame + e * cfg.speed * a.framesPerMs := by
      linarith
    have hcl : (cfg.loopAnimation &&
        (cfg.loopCount == 0 || st.loopsCompleted < cfg.loopCount)) = true := by
      simp [hloop, hlt]
    have hadv : advanceTotal (some a) cfg st e =
        { st with currentFrame := segStart cfg a
                  loopsCompleted := st.loopsCompleted + 1 } := by
      unfold advanceTotal
      rw [advance_forward_wrap a cfg st e hnseg hst hmode hcl hcand]
    rw [show advanceN (some a) cfg e (k + 1 + 1) st =
      advanceN (some a) cfg e (k + 1) (advanceTotal (some a) cfg st e) from rfl,
      hadv]
    exact ih _ hst (by simp; omega) (le_refl _) hseg.le

/-- C3: with Forward looping and a tick that crosses the whole segment, a
configured loop count N > 0 makes `loops_completed` reach exactly N after
which the status is Complete with the frame clamped at the segment end
(N + 1 boundary crossings in total); and with `loop_count == 0` no `advance`
call ever sets the status to Complete, so looping continues until an
explicit stop. -/
theorem loop_count_spec (a : Animation) (cfg : PlaybackConfig) (e : Rat) :
    (∀ N : Nat, cfg.mode = .forward → cfg.loopAnimation = true →
      cfg.loopCount = N → 0 < N →
      segStart cfg a < segEnd cfg a →
      segEnd cfg a - segStart cfg a ≤ e * cfg.speed * a.framesPerMs →
      ∀ st : PlaybackState, st.status = .playing → st.loopsCompleted = 0 →
        segStart cfg a ≤ st.currentFrame → st.currentFrame ≤ segEnd cfg a →
        (advanceN (some a) cfg e (N + 1) st).loopsCompleted = N ∧
        (advanceN (some a) cfg e (N + 1) st).status = .complete ∧
        (advanceN (some a) cfg e (N + 1) st).currentFrame = segEnd cfg a) ∧
    (cfg.loopAnimation = true → cfg.loopCount = 0 →
      ∀ (anim : Option Animation) (st : PlaybackState),
        st.status ≠ .complete →
        (advanceTotal anim cfg st e).status ≠ .complete) := by
  constructor
  · intro N hmode hloop hNc hN hseg hdelta st hst hloops hlo hhi
    have h := loop_reaches_aux a cfg e hmode hloop (hNc ▸ hN) hseg hdelta N st
      hst (by omega) hlo hhi
    rw [hNc] at h
    exact h
  · intro hloop h0 anim st hst
    cases anim with
    | none => simpa [advanceTotal, advance] using hst
    | some a' =>
      unfold advanceTotal advance
      by_cases hseg' : segEnd cfg a' ≤ segStart cfg a'
      · simpa [hseg'] using hst
      · by_cases hpl : st.status = Status.playing
        · simp only [hseg', hpl, hloop, h0, if_false, ite_not]
          cases hcm : cfg.mode <;>
            simp [hpl] <;> split_ifs <;> simp [hst, hpl]
        · simpa [hseg', hpl] using hst

/-- Witness for C3: loop count 2 on an 11-frame animation with a
segment-crossing tick — three advances give exactly 2 completed loops, then
Complete clamped at frame 10. -/
theorem loop_count_spec_witness :
    (advanceN (some ⟨11, 1⟩) ⟨.forward, true, 2, 1, true, none⟩ 10 3
      ⟨0, 1, 0, .playing⟩).loopsCompleted = 2 ∧
    (advanceN (some ⟨11, 1⟩) ⟨.forward, true, 2, 1, true, none⟩ 10 3
      ⟨0, 1, 0, .playing⟩).status = Status.complete ∧
    (advanceN (some ⟨11, 1⟩) ⟨.forward, true, 2, 1, true, none⟩ 10 3
      ⟨0, 1, 0, .playing⟩).currentFrame =
        segEnd ⟨.forward, true, 2, 1, true, none⟩ ⟨11, 1⟩ :=
  (loop_count_spec ⟨11, 1⟩ ⟨.forward, true, 2, 1, true, none⟩ 10).1 2
    rfl rfl rfl (by norm_num) (by norm_num [segStart, segEnd])
    (by norm_num [segStart, segEnd]) ⟨0, 1, 0, .playing⟩ rfl rfl
    (by norm_num [segStart]) (by norm_num [segEnd])

end DotLottie
